import Mathlib

/-!
Verification development for the Lova interaction-strength pipeline.

The Python modules under `src/lova` are embedded shallowly:

* pandas columns become `List ℚ`; a float NaN is represented by `none` in
  `Option ℚ`, so a function that can produce NaN returns `Option ℚ` values;
* a dataframe of interactions becomes a `List Row`; columns that the
  pipeline adds (`numerical_strength`, `bool_strength`, `strength`) are
  fields of `Row` that start at `0` and are filled in by the embedded
  functions exactly as the Python code fills in the columns;
* numpy integer bit operations become `Nat` operations (`>>>`, `% 2`);
* scipy's COO-to-CSR construction becomes a fold inserting (row, col, value)
  triples into a dense function `ℕ → ℕ → ℚ`, accumulating by addition.
-/

namespace Lova

/-- Pandas `Series.quantile` helper: insert a value into a sorted list. -/
def insertSorted (x : ℚ) : List ℚ → List ℚ
  | [] => [x]
  | y :: ys => if x ≤ y then x :: y :: ys else y :: insertSorted x ys

/-- Ascending sort of a column, used to compute the quantile. -/
def sortColumn (l : List ℚ) : List ℚ :=
  l.foldr insertSorted []

/-- Ceiling of a rational, expressed through `Rat.floor`. -/
def ratCeil (q : ℚ) : ℤ :=
  -Rat.floor (-q)

/-- Pandas `Series.quantile(p)` with the default linear interpolation: with the
column sorted ascending and `h = (n-1)·p`, the result is
`s[floor h] + (h - floor h)·(s[ceil h] - s[floor h])`. -/
def pandasQuantile (l : List ℚ) (p : ℚ) : ℚ :=
  let s := sortColumn l
  let h : ℚ := ((l.length : ℚ) - 1) * p
  let lo := s.getD (Rat.floor h).toNat 0
  let hi := s.getD (ratCeil h).toNat 0
  lo + (h - (Rat.floor h : ℤ)) * (hi - lo)

/-- Python's builtin `min` on two numbers, as called by
`lambda x: min(x, percentile_value)`. -/
def pyMin (a b : ℚ) : ℚ :=
  if a ≤ b then a else b

/-- Two-value maximum, used to fold `Series.max`. -/
def pyMax (a b : ℚ) : ℚ :=
  if a ≤ b then b else a

/-- Pandas `Series.min` on a column (the empty case is unreachable in the
pipeline and is given the conventional value `0`). -/
def colMin : List ℚ → ℚ
  | [] => 0
  | x :: xs => xs.foldl pyMin x

/-- Pandas `Series.max` on a column. -/
def colMax : List ℚ → ℚ
  | [] => 0
  | x :: xs => xs.foldl pyMax x

/-- Embeds the loop body of `normalize_with_percentile_cap`
(`src/lova/aggregators/normalize_with_percentile.py`) for one selected
column: cap every value at the `p`-quantile, then min-max rescale by the
post-cap minimum and maximum.  In Python the rescaling divides by
`max - min`; when that difference is `0` every numerator is also `0` and the
float division yields NaN, represented here by `none`. -/
def normalize_column (l : List ℚ) (p : ℚ) : List (Option ℚ) :=
  let q := pandasQuantile l p
  let capped := l.map (fun x => pyMin x q)
  let mn := colMin capped
  let mx := colMax capped
  capped.map (fun x => if mx - mn = 0 then none else some ((x - mn) / (mx - mn)))

/-- Embeds `label_to_vector`
(`src/lova/aggregators/convert_label_encoding_to_vector.py`):
`[(label >> i) & 1 for i in range(field_num - 1, -1, -1)]`. -/
def label_to_vector (label : ℕ) (field_num : ℕ) : List ℕ :=
  (List.range field_num).reverse.map (fun i => (label >>> i) % 2)

/-- Embeds `label_list_to_vector`: start from `np.zeros(field_num)` and add
the decoded vector of every label in the list element-wise. -/
def label_list_to_vector (label_list : List ℕ) (field_num : ℕ) : List ℕ :=
  label_list.foldl
    (fun vec label => List.zipWith (· + ·) vec (label_to_vector label field_num))
    (List.replicate field_num 0)

/-- A raw numeric cell of an interaction dataframe: either a scalar or a
list of numbers. -/
inductive CellValue where
  | scalar (x : ℚ)
  | listVal (l : List ℚ)
deriving DecidableEq, Repr

/-- Python's builtin `sum` as used in `sequence_with_equal_importance`:
summing a list succeeds, while `sum` of a scalar raises
`TypeError: 'int' object is not iterable`, represented here by `none`. -/
def pySum : CellValue → Option ℚ
  | CellValue.scalar _ => none
  | CellValue.listVal l => some l.sum

/-- Embeds the loop body of `sequence_with_equal_importance`
(`src/lova/aggregators/generate_sequence_order.py`) for one selected column:
`interactions[col].apply(sum)`.  A raised `TypeError` aborts the whole
column, hence the `Option` on the result. -/
def sequence_with_equal_importance_col (column : List CellValue) : Option (List ℚ) :=
  column.mapM pySum

/-- Dot product of two rational vectors, embedding `np.dot`. -/
def dotQ (v w : List ℚ) : ℚ :=
  (List.zipWith (· * ·) v w).sum

/-- Dot product of a decoded (natural-valued) label vector with a rational
weight vector; numpy performs the same products after converting the label
counts to floats. -/
def dotNQ (v : List ℕ) (w : List ℚ) : ℚ :=
  (List.zipWith (fun a b => (a : ℚ) * b) v w).sum

/-- One interaction row.  `user`, `item`, `label` and the named numeric
columns come from the input dataframe; the remaining three fields embed the
columns that `merge_numerical_interactions_with_strength`,
`merge_bool_interactions_with_strength` and `_calculate_strength` add, and
start at `0` (absent). -/
structure Row where
  user : ℕ
  item : ℕ
  label : List ℕ
  numeric : List (String × ℚ)
  numerical_strength : ℚ := 0
  bool_strength : ℚ := 0
  strength : ℚ := 0
deriving DecidableEq, Repr

/-- Column access `row[c]` on the named numeric columns.  A missing column
would be a pandas `KeyError`; the pipeline's configuration invariant keeps
every configured key present, so the default `0` is never exercised by the
claims. -/
def getCol (numeric : List (String × ℚ)) (c : String) : ℚ :=
  ((numeric.find? (fun q => q.1 == c)).map Prod.snd).getD 0

/-- Embeds `merge_numerical_interactions_with_strength`
(`src/lova/aggregators/merge_with_strength.py`): read the selected columns
and the weight list off the ordered dict, then set
`numerical_strength = np.dot(interactions[selected_columns], strength_list)`
row by row. -/
def merge_numerical_interactions_with_strength
    (interactions : List Row) (strength_dict : List (String × ℚ)) : List Row :=
  let selected_columns := strength_dict.map Prod.fst
  let strength_list := strength_dict.map Prod.snd
  interactions.map (fun r =>
    { r with
        numerical_strength := dotQ (selected_columns.map (getCol r.numeric)) strength_list })

/-- Embeds `merge_bool_interactions_with_strength`: decode each row's label
list at width `len(strength_vector)` and set
`bool_strength = np.dot(decoded, strength_vector)`. -/
def merge_bool_interactions_with_strength
    (interactions : List Row) (strength_vector : List ℚ) : List Row :=
  interactions.map (fun r =>
    { r with
        bool_strength := dotNQ (label_list_to_vector r.label strength_vector.length) strength_vector })

/-- Embeds `InteractionPreprocessor._calculate_strength`
(`src/lova/preprocessors/preprocess_interactions.py`): numerical merge, then
boolean merge, then `strength = numerical_strength * numerical_bool_ratio +
bool_strength` (the blend ratio is called `num_bool_blend` here). -/
def calculate_strength (dataset : List Row) (strength_dict : List (String × ℚ))
    (strength_vector : List ℚ) (num_bool_blend : ℚ) : List Row :=
  let ds1 := merge_numerical_interactions_with_strength dataset strength_dict
  let ds2 := merge_bool_interactions_with_strength ds1 strength_vector
  ds2.map (fun r =>
    { r with strength := r.numerical_strength * num_bool_blend + r.bool_strength })

/-- Pandas `Series.unique`: the distinct values of a column in first-seen
order.  `seen` carries the values already emitted. -/
def uniqueSeen (seen : List ℕ) : List ℕ → List ℕ
  | [] => []
  | x :: xs => if x ∈ seen then uniqueSeen seen xs else x :: uniqueSeen (x :: seen) xs

/-- First-seen distinct values of an id column. -/
def uniqueFirstSeen (l : List ℕ) : List ℕ :=
  uniqueSeen [] l

/-- The id-to-index dictionary `{id: i for i, id in enumerate(ids)}` built in
`_get_id_index_mapping`, as an association list in insertion order. -/
def idToIndex (ids : List ℕ) : List (ℕ × ℕ) :=
  (uniqueFirstSeen ids).enum.map (fun q => (q.2, q.1))

/-- Pandas `Series.map(dict)`: `none` embeds the NaN produced for a key that
is absent from the dictionary. -/
def mapToIndex (m : List (ℕ × ℕ)) (x : ℕ) : Option ℕ :=
  (m.find? (fun q => q.1 == x)).map Prod.snd

/-- `Series.map` over a whole id column inside the preprocessor.  There every
id of the column is a key of the dictionary (the dictionary was just built
from the same column), so the NaN default `0` is never exercised. -/
def indexColumn (m : List (ℕ × ℕ)) (ids : List ℕ) : List ℕ :=
  ids.map (fun x => (mapToIndex m x).getD 0)

/-- A sparse interaction matrix: its shape and the entry at each
(row, column) coordinate. -/
structure CSRMat where
  shape : ℕ × ℕ
  entry : ℕ → ℕ → ℚ

/-- Insertion of one ((row, col), value) triple during COO construction:
scipy accumulates a duplicate coordinate by addition, never by overwrite. -/
def coo_insert (M : ℕ → ℕ → ℚ) (t : (ℕ × ℕ) × ℚ) : ℕ → ℕ → ℚ :=
  fun r c => if (r, c) = t.1 then M r c + t.2 else M r c

/-- Embeds `scipy.sparse.csr_matrix((data, (rows, cols)), shape)`: fold every
triple into the all-zero matrix, accumulating duplicates by addition. -/
def csr_matrix (data : List ℚ) (rows cols : List ℕ) (shape : ℕ × ℕ) : CSRMat :=
  { shape := shape
    entry := ((rows.zip cols).zip data).foldl coo_insert (fun _ _ => 0) }

/-- The mutable attributes of `InteractionPreprocessor` that the embedded
methods read and write (`src/lova/preprocessors/preprocess_interactions.py`).
`num_bool_blend` embeds the attribute `numerical_bool_ratio`. -/
structure PState where
  dataset : List Row
  strength_dict : List (String × ℚ)
  strength_vector : List ℚ
  num_bool_blend : ℚ
  user_id_to_index : List (ℕ × ℕ)
  item_id_to_index : List (ℕ × ℕ)
  rows : List ℕ
  cols : List ℕ
  sparse_interaction_matrix : CSRMat

/-- Embeds the method `_calculate_strength` acting on the object state. -/
def state_calculate_strength (st : PState) : PState :=
  { st with
      dataset := calculate_strength st.dataset st.strength_dict st.strength_vector st.num_bool_blend }

/-- Embeds `_get_id_index_mapping`: build both id dictionaries from the
dataset's id columns and map the columns through them. -/
def state_get_id_index_mapping (st : PState) : PState :=
  let user_map := idToIndex (st.dataset.map Row.user)
  let item_map := idToIndex (st.dataset.map Row.item)
  { st with
      user_id_to_index := user_map
      item_id_to_index := item_map
      rows := indexColumn user_map (st.dataset.map Row.user)
      cols := indexColumn item_map (st.dataset.map Row.item) }

/-- Embeds `_get_sparse_interaction_matrix`: assemble the CSR matrix from the
strength column, the index streams and the shape
`(len(user_id_to_index), len(item_id_to_index))`. -/
def state_get_sparse_interaction_matrix (st : PState) : PState :=
  { st with
      sparse_interaction_matrix :=
        csr_matrix (st.dataset.map Row.strength) st.rows st.cols
          (st.user_id_to_index.length, st.item_id_to_index.length) }

/-- Embeds `_update_sparse_interaction_matrix`: install the new weights,
recompute the strength column, rebuild the matrix. -/
def state_update_sparse_interaction_matrix (st : PState)
    (strength_dict : List (String × ℚ)) (strength_vector : List ℚ)
    (num_bool_blend : ℚ) : PState :=
  state_get_sparse_interaction_matrix
    (state_calculate_strength
      { st with
          strength_dict := strength_dict
          strength_vector := strength_vector
          num_bool_blend := num_bool_blend })

/-- One held-out row seen by `ImplicitALSEvaluator`
(`src/lova/evaluators/ials_evaluator.py`): the user id column, the item id
column, and the remaining columns of the held-out dataframe, where a `none`
embeds a NaN cell. -/
structure EvalRow where
  user : ℕ
  item : ℕ
  extra : List (Option ℚ)
deriving DecidableEq, Repr

/-- Embeds `_map_id_to_index`: add the `user_map` and `item_map` columns by
dictionary lookup, run `dropna` on the whole augmented dataframe (a row is
removed when ANY of its cells is NaN - a failed id lookup or a NaN in any
other column), and read off the zipped
(`user_evaluate_indice`, `item_evaluate_indice`) streams of the surviving
rows. -/
def map_id_to_index (user_map item_map : List (ℕ × ℕ))
    (dataset : List EvalRow) : List (ℕ × ℕ) :=
  let augmented := dataset.map (fun r => (r, mapToIndex user_map r.user, mapToIndex item_map r.item))
  let kept := augmented.filter
    (fun t => t.2.1.isSome && t.2.2.isSome && t.1.extra.all (fun v => v.isSome))
  kept.map (fun t => (t.2.1.getD 0, t.2.2.getD 0))

/-- Embeds `ImplicitALSEvaluator.evaluate` given the factor matrices and the
retained index pairs: per-row dot product of the selected user and item
factor rows, then `scores.mean()`.  numpy's mean of an empty array is NaN
(`none`); otherwise the mean is the sum divided by the count. -/
def evaluate_score (user_factors item_factors : List (List ℚ))
    (indices : List (ℕ × ℕ)) : Option ℚ :=
  let scores := indices.map
    (fun q => dotQ (user_factors.getD q.1 []) (item_factors.getD q.2 []))
  if scores.length = 0 then none else some (scores.sum / (scores.length : ℚ))

/-- The evaluator pipeline: `_map_id_to_index` at construction, then
`evaluate`. -/
def evaluate_heldout (user_map item_map : List (ℕ × ℕ))
    (user_factors item_factors : List (List ℚ))
    (dataset : List EvalRow) : Option ℚ :=
  evaluate_score user_factors item_factors (map_id_to_index user_map item_map dataset)

/-- The one interaction of the spec's end-to-end example: normalized numeric
values `A = 1.0`, `B = 1.0`, and a label whose two decoded bits are `[1, 0]`
(the integer `2`). -/
def C1row : Row :=
  { user := 0, item := 0, label := [2], numeric := [("A", 1), ("B", 1)] }

/-- The row the pipeline produces from `C1row` under weights
`{A: 0.5, B: 1.5}`, boolean weights `[1, 2]` and blend ratio `1`. -/
def C1out : Row :=
  { C1row with numerical_strength := 2, bool_strength := 1, strength := 3 }

/-- A small concrete preprocessor state before preprocessing: two
interactions of one user and two items. -/
def W6base : PState :=
  { dataset := [{ user := 3, item := 4, label := [1], numeric := [("A", 2)] },
                { user := 3, item := 5, label := [0], numeric := [("A", 7)] }]
    strength_dict := [("A", 1)]
    strength_vector := [1]
    num_bool_blend := 1/2
    user_id_to_index := []
    item_id_to_index := []
    rows := []
    cols := []
    sparse_interaction_matrix := { shape := (0, 0), entry := fun _ _ => 0 } }

/-- `W6base` taken through strength calculation, id indexing and matrix
assembly, as `preprocess` does. -/
def W6state : PState :=
  state_get_sparse_interaction_matrix
    (state_get_id_index_mapping (state_calculate_strength W6base))

/-! ## Lemmas about the boolean label decoder -/

lemma label_to_vector_length (a f : ℕ) : (label_to_vector a f).length = f := by
  simp [label_to_vector]

lemma label_to_vector_getD (a f j : ℕ) (h : j < f) :
    (label_to_vector a f).getD j 0 = a / 2 ^ (f - 1 - j) % 2 := by
  have hlen : j < (label_to_vector a f).length := by
    rw [label_to_vector_length]; exact h
  rw [List.getD_eq_getElem _ _ hlen]
  simp [label_to_vector, List.getElem_reverse, Nat.shiftRight_eq_div_pow]

lemma bit_window (a i f : ℕ) (h : i < f) :
    ((a % 2 ^ f) >>> i) % 2 = (a >>> i) % 2 := by
  rw [Nat.shiftRight_eq_div_pow, Nat.shiftRight_eq_div_pow]
  have h2 : (2 : ℕ) ^ f = 2 ^ i * 2 ^ (f - i) := by
    rw [← pow_add]
    congr 1
    omega
  rw [h2, Nat.mod_mul_right_div_self]
  exact Nat.mod_mod_of_dvd _ (dvd_pow_self 2 (by omega))

lemma label_to_vector_mod (a f : ℕ) :
    label_to_vector (a % 2 ^ f) f = label_to_vector a f := by
  unfold label_to_vector
  refine List.map_congr_left fun i hi => ?_
  have hif : i < f := List.mem_range.mp (List.mem_reverse.mp hi)
  exact bit_window a i f hif

lemma zipWith_add_getD (v w : List ℕ) (j : ℕ) (hv : j < v.length) (hw : j < w.length) :
    (List.zipWith (· + ·) v w).getD j 0 = v.getD j 0 + w.getD j 0 := by
  have hl : j < (List.zipWith (· + ·) v w).length := by
    rw [List.length_zipWith]; omega
  rw [List.getD_eq_getElem _ _ hl, List.getD_eq_getElem _ _ hv, List.getD_eq_getElem _ _ hw]
  simp [List.getElem_zipWith]

lemma foldl_decode_getD (f j : ℕ) (hj : j < f) :
    ∀ (ll : List ℕ) (vec : List ℕ), vec.length = f →
      (ll.foldl (fun vec label => List.zipWith (· + ·) vec (label_to_vector label f)) vec).getD j 0
        = vec.getD j 0 + (ll.map (fun a => a / 2 ^ (f - 1 - j) % 2)).sum := by
  intro ll
  induction ll with
  | nil => intro vec hv; simp
  | cons a ll ih =>
    intro vec hv
    have hstep : (List.zipWith (· + ·) vec (label_to_vector a f)).length = f := by
      rw [List.length_zipWith, label_to_vector_length, hv]
      exact Nat.min_self f
    simp only [List.foldl_cons, List.map_cons, List.sum_cons]
    rw [ih _ hstep,
      zipWith_add_getD _ _ _ (by rw [hv]; exact hj) (by rw [label_to_vector_length]; exact hj),
      label_to_vector_getD a f j hj]
    omega

/-- C3: `label_to_vector` returns the low `field_num` bits of the label, most
significant first (entry `j` is bit `field_num - 1 - j`); bits above the
window are ignored (`label` and `label % 2 ^ field_num` decode identically);
and `label_list_to_vector` decodes each list element independently and adds
the vectors element-wise, so entry `j` is the arithmetic sum of that bit over
the list. -/
theorem label_decoding_window_and_sum (label f j : ℕ) (ll : List ℕ) (h : j < f) :
    (label_to_vector label f).getD j 0 = label / 2 ^ (f - 1 - j) % 2
    ∧ label_to_vector label f = label_to_vector (label % 2 ^ f) f
    ∧ (label_list_to_vector ll f).getD j 0
        = (ll.map (fun a => a / 2 ^ (f - 1 - j) % 2)).sum := by
  refine ⟨label_to_vector_getD label f j h, (label_to_vector_mod label f).symm, ?_⟩
  unfold label_list_to_vector
  rw [foldl_decode_getD f j h ll (List.replicate f 0) (by simp)]
  simp

theorem label_decoding_window_and_sum_witness :
    (label_to_vector 6 2).getD 0 0 = 6 / 2 ^ (2 - 1 - 0) % 2
    ∧ label_to_vector 6 2 = label_to_vector (6 % 2 ^ 2) 2
    ∧ (label_list_to_vector [3, 3] 2).getD 0 0
        = ([3, 3].map (fun a => a / 2 ^ (2 - 1 - 0) % 2)).sum :=
  label_decoding_window_and_sum 6 2 0 [3, 3] (by decide)

/-- C2 (code evaluation): on the constant column `[5, 5]` with percentile
`1.0` the post-cap maximum equals the minimum, and `normalize_column`
produces NaN (`none`) for every entry; the function has no error path. -/
theorem normalize_degenerate_silent_nan :
    normalize_column [5, 5] 1 = [none, none] := by
  have hq : pandasQuantile [5, 5] 1 = 5 := by
    simp only [pandasQuantile, sortColumn]
    norm_num [Rat.floor_def', insertSorted, ratCeil]
  simp only [normalize_column, hq]
  norm_num [pyMin, colMin, colMax, pyMax]

/-- C9 counterexample: a scalar cell is not reduced to a scalar by summation;
Python's `sum` raises `TypeError` on it (modelled by `none`), so the column
is not processed at all. -/
theorem scalar_cell_raises :
    sequence_with_equal_importance_col [CellValue.scalar 5] = none
    ∧ sequence_with_equal_importance_col [CellValue.scalar 5] ≠ some [5] := by
  constructor
  · rfl
  · decide

/-- C9 (amended): every configured numeric field whose raw per-interaction
value is a list of numbers is reduced to a scalar by summation; scalar raw
values are not supported. -/
theorem list_cells_summed (ls : List (List ℚ)) :
    sequence_with_equal_importance_col (ls.map CellValue.listVal)
      = some (ls.map List.sum) := by
  induction ls with
  | nil => rfl
  | cons l ls ih =>
    simp only [sequence_with_equal_importance_col, List.map_cons, List.mapM_cons, pySum] at ih ⊢
    rw [ih]
    rfl

/-! ## Lemmas about sparse-matrix assembly -/

lemma foldl_coo_insert (ts : List ((ℕ × ℕ) × ℚ)) (M : ℕ → ℕ → ℚ) (r c : ℕ) :
    (ts.foldl coo_insert M) r c
      = M r c + ((ts.filter (fun t => t.1 == (r, c))).map Prod.snd).sum := by
  induction ts generalizing M with
  | nil => simp
  | cons t ts ih =>
    rw [List.foldl_cons, ih, List.filter_cons]
    by_cases h : t.1 = (r, c)
    · have hb : (t.1 == (r, c)) = true := beq_iff_eq.mpr h
      have hcoo : coo_insert M t r c = M r c + t.2 := by
        simp only [coo_insert]
        rw [if_pos h.symm]
      rw [hb, if_pos rfl, hcoo, List.map_cons, List.sum_cons]
      ring
    · have hb : (t.1 == (r, c)) = false := by
        simpa using h
      have hcoo : coo_insert M t r c = M r c := by
        simp only [coo_insert]
        rw [if_neg (fun hh => h hh.symm)]
      rw [hb, hcoo]
      simp

/-- C5: the entry of the assembled sparse matrix at `(r, c)` is the SUM of
the strengths of all triples carrying that coordinate (never the last value
written); in particular two identical triples of strength `s` yield `2·s`. -/
theorem sparse_matrix_accumulates_duplicates :
    (∀ (data : List ℚ) (rows cols : List ℕ) (shape : ℕ × ℕ) (r c : ℕ),
      (csr_matrix data rows cols shape).entry r c
        = ((((rows.zip cols).zip data).filter (fun t => t.1 == (r, c))).map Prod.snd).sum)
    ∧ ∀ (r c : ℕ) (s : ℚ) (shape : ℕ × ℕ),
      (csr_matrix [s, s] [r, r] [c, c] shape).entry r c = 2 * s := by
  constructor
  · intro data rows cols shape r c
    simp [csr_matrix, foldl_coo_insert]
  · intro r c s shape
    simp [csr_matrix, coo_insert]
    ring

/-! ## The fused strength formula -/

lemma dotQ_selected (sd : List (String × ℚ)) (nm : List (String × ℚ)) :
    dotQ (List.map (getCol nm ∘ Prod.fst) sd) (List.map Prod.snd sd)
      = (sd.map (fun q => getCol nm q.1 * q.2)).sum := by
  induction sd with
  | nil => rfl
  | cons q sd ih =>
    simp only [List.map_cons, Function.comp_apply, dotQ, List.zipWith_cons_cons,
      List.sum_cons] at ih ⊢
    rw [ih]

lemma calculate_strength_eq (ds : List Row) (sd : List (String × ℚ))
    (sv : List ℚ) (b : ℚ) :
    calculate_strength ds sd sv b = ds.map (fun r =>
      { r with
          numerical_strength := (sd.map (fun q => getCol r.numeric q.1 * q.2)).sum
          bool_strength := dotNQ (label_list_to_vector r.label sv.length) sv
          strength := (sd.map (fun q => getCol r.numeric q.1 * q.2)).sum * b
            + dotNQ (label_list_to_vector r.label sv.length) sv }) := by
  simp only [calculate_strength, merge_numerical_interactions_with_strength,
    merge_bool_interactions_with_strength, List.map_map]
  refine List.map_congr_left fun r _ => ?_
  simp only [dotQ_selected]
  rfl

/-- C1: `_calculate_strength` gives every row
`numerical_strength = Σ_c weight_c · value_c` over the configured columns,
`bool_strength = dot(decoded label vector, bool weight vector)`, and
`strength = numerical_strength · blend + bool_strength` — the blend ratio
scales only the numeric side, the boolean side is added unscaled; on the
spec's end-to-end example the pipeline yields `numerical_strength = 2`,
`bool_strength = 1`, `strength = 3`. -/
theorem strength_fusion_formula :
    (∀ (ds : List Row) (sd : List (String × ℚ)) (sv : List ℚ) (b : ℚ),
      calculate_strength ds sd sv b = ds.map (fun r =>
        { r with
            numerical_strength := (sd.map (fun q => getCol r.numeric q.1 * q.2)).sum
            bool_strength := dotNQ (label_list_to_vector r.label sv.length) sv
            strength := (sd.map (fun q => getCol r.numeric q.1 * q.2)).sum * b
              + dotNQ (label_list_to_vector r.label sv.length) sv }))
    ∧ (∀ (ds : List Row) (sd : List (String × ℚ)) (sv : List ℚ) (b : ℚ) (r : Row),
        r ∈ calculate_strength ds sd sv b →
          r.strength = r.numerical_strength * b + r.bool_strength)
    ∧ calculate_strength [C1row] [("A", 1/2), ("B", 3/2)] [1, 2] 1 = [C1out] := by
  refine ⟨calculate_strength_eq, ?_, ?_⟩
  · intro ds sd sv b r hr
    rw [calculate_strength_eq] at hr
    obtain ⟨r2, _, rfl⟩ := List.mem_map.mp hr
    rfl
  · rw [calculate_strength_eq]
    have hdot : dotNQ (label_list_to_vector [2] 2) [1, 2] = 1 := by
      have hlv : label_list_to_vector [2] 2 = [1, 0] := by decide
      simp [dotNQ, hlv]
    have hA : getCol [("A", (1 : ℚ)), ("B", 1)] "A" = 1 := by decide
    have hB : getCol [("A", (1 : ℚ)), ("B", 1)] "B" = 1 := by decide
    simp only [C1row, C1out, List.map_cons, List.map_nil, List.length_cons,
      List.length_nil, List.sum_cons, List.sum_nil, hA, hB]
    norm_num [hdot]

theorem strength_fusion_formula_witness :
    C1out.strength = C1out.numerical_strength * 1 + C1out.bool_strength :=
  strength_fusion_formula.2.1 [C1row] [("A", 1/2), ("B", 3/2)] [1, 2] 1 C1out
    (by rw [strength_fusion_formula.2.2]; exact List.mem_singleton.mpr rfl)

/-- C6: rebuilding the matrix under new weights via
`_update_sparse_interaction_matrix` leaves the id-to-index maps, the row and
column index streams, and the matrix shape unchanged (only entry values can
change). -/
theorem update_preserves_index_space (st : PState) (sd : List (String × ℚ))
    (sv : List ℚ) (b : ℚ)
    (h : st.sparse_interaction_matrix.shape
        = (st.user_id_to_index.length, st.item_id_to_index.length)) :
    (state_update_sparse_interaction_matrix st sd sv b).user_id_to_index
        = st.user_id_to_index
    ∧ (state_update_sparse_interaction_matrix st sd sv b).item_id_to_index
        = st.item_id_to_index
    ∧ (state_update_sparse_interaction_matrix st sd sv b).rows = st.rows
    ∧ (state_update_sparse_interaction_matrix st sd sv b).cols = st.cols
    ∧ (state_update_sparse_interaction_matrix st sd sv b).sparse_interaction_matrix.shape
        = st.sparse_interaction_matrix.shape := by
  refine ⟨rfl, rfl, rfl, rfl, ?_⟩
  rw [h]
  rfl

theorem update_preserves_index_space_witness :
    (state_update_sparse_interaction_matrix W6state [("A", 2)] [3] 1).user_id_to_index
        = W6state.user_id_to_index
    ∧ (state_update_sparse_interaction_matrix W6state [("A", 2)] [3] 1).item_id_to_index
        = W6state.item_id_to_index
    ∧ (state_update_sparse_interaction_matrix W6state [("A", 2)] [3] 1).rows = W6state.rows
    ∧ (state_update_sparse_interaction_matrix W6state [("A", 2)] [3] 1).cols = W6state.cols
    ∧ (state_update_sparse_interaction_matrix W6state [("A", 2)] [3] 1).sparse_interaction_matrix.shape
        = W6state.sparse_interaction_matrix.shape :=
  update_preserves_index_space W6state [("A", 2)] [3] 1 rfl

/-! ## Order lemmas for the capped column -/

lemma pyMin_le_left (a b : ℚ) : pyMin a b ≤ a := by
  unfold pyMin
  by_cases h : a ≤ b
  · rw [if_pos h]
  · rw [if_neg h]
    exact (not_le.mp h).le

lemma pyMin_le_right (a b : ℚ) : pyMin a b ≤ b := by
  unfold pyMin
  by_cases h : a ≤ b
  · rw [if_pos h]; exact h
  · rw [if_neg h]

lemma pyMin_eq_left {a b : ℚ} (h : a ≤ b) : pyMin a b = a := by
  unfold pyMin
  exact if_pos h

lemma le_pyMax_left (a b : ℚ) : a ≤ pyMax a b := by
  unfold pyMax
  by_cases h : a ≤ b
  · rw [if_pos h]; exact h
  · rw [if_neg h]

lemma le_pyMax_right (a b : ℚ) : b ≤ pyMax a b := by
  unfold pyMax
  by_cases h : a ≤ b
  · rw [if_pos h]
  · rw [if_neg h]
    exact (not_le.mp h).le

lemma foldl_pyMin_le_init (xs : List ℚ) (a : ℚ) : xs.foldl pyMin a ≤ a := by
  induction xs generalizing a with
  | nil => exact le_refl a
  | cons x xs ih => exact le_trans (ih (pyMin a x)) (pyMin_le_left a x)

lemma foldl_pyMin_le_mem (xs : List ℚ) (a x : ℚ) (hx : x ∈ xs) : xs.foldl pyMin a ≤ x := by
  induction xs generalizing a with
  | nil => cases hx
  | cons y ys ih =>
    rcases List.mem_cons.mp hx with rfl | h
    · exact le_trans (foldl_pyMin_le_init ys (pyMin a x)) (pyMin_le_right a x)
    · exact ih (pyMin a y) h

lemma init_le_foldl_pyMax (xs : List ℚ) (a : ℚ) : a ≤ xs.foldl pyMax a := by
  induction xs generalizing a with
  | nil => exact le_refl a
  | cons x xs ih => exact le_trans (le_pyMax_left a x) (ih (pyMax a x))

lemma mem_le_foldl_pyMax (xs : List ℚ) (a x : ℚ) (hx : x ∈ xs) : x ≤ xs.foldl pyMax a := by
  induction xs generalizing a with
  | nil => cases hx
  | cons y ys ih =>
    rcases List.mem_cons.mp hx with rfl | h
    · exact le_trans (le_pyMax_right a x) (init_le_foldl_pyMax ys (pyMax a x))
    · exact ih (pyMax a y) h

lemma colMin_le {l : List ℚ} {x : ℚ} (hx : x ∈ l) : colMin l ≤ x := by
  cases l with
  | nil => cases hx
  | cons a as =>
    rcases List.mem_cons.mp hx with rfl | h
    · exact foldl_pyMin_le_init as x
    · exact foldl_pyMin_le_mem as a x h

lemma le_colMax {l : List ℚ} {x : ℚ} (hx : x ∈ l) : x ≤ colMax l := by
  cases l with
  | nil => cases hx
  | cons a as =>
    rcases List.mem_cons.mp hx with rfl | h
    · exact init_le_foldl_pyMax as x
    · exact mem_le_foldl_pyMax as a x h

/-- C4: for every column that is non-degenerate after capping and every
percentile in (0, 1], normalization caps each value at the quantile (values
already below the cap are left unchanged) and then min-max rescales by the
post-cap minimum and maximum, so every normalized output value lies in
[0, 1]. -/
theorem percentile_normalization_bounds (l : List ℚ) (p : ℚ)
    (hp0 : 0 < p) (hp1 : p ≤ 1)
    (hnd : colMin (l.map (fun x => pyMin x (pandasQuantile l p)))
         < colMax (l.map (fun x => pyMin x (pandasQuantile l p)))) :
    (∀ x ∈ l, pyMin x (pandasQuantile l p) ≤ pandasQuantile l p
        ∧ (x ≤ pandasQuantile l p → pyMin x (pandasQuantile l p) = x))
    ∧ ∀ v ∈ normalize_column l p, ∃ y, v = some y ∧ 0 ≤ y ∧ y ≤ 1 := by
  constructor
  · intro x _
    exact ⟨pyMin_le_right x _, fun hxq => pyMin_eq_left hxq⟩
  · intro v hv
    simp only [normalize_column] at hv
    obtain ⟨x, hx, rfl⟩ := List.mem_map.mp hv
    have hne0 : colMax (l.map (fun x => pyMin x (pandasQuantile l p)))
        - colMin (l.map (fun x => pyMin x (pandasQuantile l p))) ≠ 0 :=
      sub_ne_zero.mpr hnd.ne'
    rw [if_neg hne0]
    refine ⟨_, rfl, ?_, ?_⟩
    · exact div_nonneg (sub_nonneg.mpr (colMin_le hx)) (sub_pos.mpr hnd).le
    · rw [div_le_one (sub_pos.mpr hnd)]
      exact sub_le_sub_right (le_colMax hx) _

theorem percentile_normalization_bounds_witness :
    (∀ x ∈ ([0, 1, 2] : List ℚ),
        pyMin x (pandasQuantile [0, 1, 2] 1) ≤ pandasQuantile [0, 1, 2] 1
        ∧ (x ≤ pandasQuantile [0, 1, 2] 1 → pyMin x (pandasQuantile [0, 1, 2] 1) = x))
    ∧ ∀ v ∈ normalize_column [0, 1, 2] 1, ∃ y, v = some y ∧ 0 ≤ y ∧ y ≤ 1 :=
  percentile_normalization_bounds [0, 1, 2] 1 (by norm_num) (by norm_num)
    (by
      have hq : pandasQuantile [0, 1, 2] 1 = 2 := by
        simp only [pandasQuantile, sortColumn]
        norm_num [Rat.floor_def', insertSorted, ratCeil]
        decide
      rw [hq]
      norm_num [pyMin, colMin, colMax, pyMax])

/-! ## The evaluator pipeline -/

lemma map_id_to_index_append_drop (user_map item_map : List (ℕ × ℕ))
    (ds : List EvalRow) (row : EvalRow)
    (hdrop : (((mapToIndex user_map row.user).isSome
        && (mapToIndex item_map row.item).isSome)
        && row.extra.all (fun v => v.isSome)) = false) :
    map_id_to_index user_map item_map (ds ++ [row])
      = map_id_to_index user_map item_map ds := by
  simp only [map_id_to_index, List.map_append, List.filter_append, List.map_cons,
    List.map_nil, List.filter_cons, List.filter_nil, hdrop]
  simp

/-- C7: a held-out row whose user id or item id is absent from the index
maps is dropped entirely (appending it changes neither the retained index
stream nor the score), and on a non-empty retained set the score is the
arithmetic mean of the per-row dot products of user and item factor
vectors. -/
theorem evaluator_drops_unmapped (user_map item_map : List (ℕ × ℕ))
    (user_factors item_factors : List (List ℚ)) (ds : List EvalRow) (row : EvalRow)
    (h : mapToIndex user_map row.user = none ∨ mapToIndex item_map row.item = none) :
    map_id_to_index user_map item_map (ds ++ [row])
        = map_id_to_index user_map item_map ds
    ∧ evaluate_heldout user_map item_map user_factors item_factors (ds ++ [row])
        = evaluate_heldout user_map item_map user_factors item_factors ds
    ∧ (map_id_to_index user_map item_map ds ≠ [] →
        evaluate_heldout user_map item_map user_factors item_factors ds
          = some (((map_id_to_index user_map item_map ds).map
              (fun q => dotQ (user_factors.getD q.1 []) (item_factors.getD q.2 []))).sum
            / ((map_id_to_index user_map item_map ds).length : ℚ))) := by
  have hdrop : map_id_to_index user_map item_map (ds ++ [row])
      = map_id_to_index user_map item_map ds := by
    refine map_id_to_index_append_drop user_map item_map ds row ?_
    rcases h with h | h <;> simp [h]
  refine ⟨hdrop, ?_, ?_⟩
  · rw [evaluate_heldout, evaluate_heldout, hdrop]
  · intro hne
    simp only [evaluate_heldout, evaluate_score]
    rw [if_neg (by simp [List.length_eq_zero, hne])]
    simp

theorem evaluator_drops_unmapped_witness :
    map_id_to_index [(7, 0)] [(5, 0)] ([⟨7, 5, []⟩] ++ [⟨9, 5, []⟩])
        = map_id_to_index [(7, 0)] [(5, 0)] [⟨7, 5, []⟩]
    ∧ evaluate_heldout [(7, 0)] [(5, 0)] [[1, 2]] [[3, 4]] ([⟨7, 5, []⟩] ++ [⟨9, 5, []⟩])
        = evaluate_heldout [(7, 0)] [(5, 0)] [[1, 2]] [[3, 4]] [⟨7, 5, []⟩]
    ∧ (map_id_to_index [(7, 0)] [(5, 0)] [⟨7, 5, []⟩] ≠ [] →
        evaluate_heldout [(7, 0)] [(5, 0)] [[1, 2]] [[3, 4]] [⟨7, 5, []⟩]
          = some (((map_id_to_index [(7, 0)] [(5, 0)] [⟨7, 5, []⟩]).map
              (fun q => dotQ (([[1, 2]] : List (List ℚ)).getD q.1 [])
                (([[3, 4]] : List (List ℚ)).getD q.2 []))).sum
            / ((map_id_to_index [(7, 0)] [(5, 0)] [⟨7, 5, []⟩]).length : ℚ))) :=
  evaluator_drops_unmapped [(7, 0)] [(5, 0)] [[1, 2]] [[3, 4]] [⟨7, 5, []⟩] ⟨9, 5, []⟩
    (Or.inl rfl)

/-- C8 (code evaluation): a held-out set in which no row survives the id
mapping produces NaN (numpy's mean of an empty array, modelled by `none`)
without raising any error: the id `1` is absent from both index maps, the
retained set is empty, and `evaluate` returns NaN. -/
theorem empty_retained_mean_nan :
    map_id_to_index [(0, 0)] [(0, 0)] [⟨1, 1, []⟩] = []
    ∧ evaluate_heldout [(0, 0)] [(0, 0)] [[1]] [[1]] [⟨1, 1, []⟩] = none := by
  exact ⟨rfl, rfl⟩

/-- C10: `_map_id_to_index` runs `dropna` on the WHOLE augmented held-out
dataframe, so a row with a NaN in any column is removed from the evaluation
set even when both of its ids map successfully, and the evaluation mean is
unchanged by appending such a row. -/
theorem dropna_removes_nan_rows (user_map item_map : List (ℕ × ℕ))
    (user_factors item_factors : List (List ℚ)) (ds : List EvalRow) (row : EvalRow)
    (hu : (mapToIndex user_map row.user).isSome = true)
    (hi : (mapToIndex item_map row.item).isSome = true)
    (hn : (none : Option ℚ) ∈ row.extra) :
    map_id_to_index user_map item_map (ds ++ [row])
        = map_id_to_index user_map item_map ds
    ∧ evaluate_heldout user_map item_map user_factors item_factors (ds ++ [row])
        = evaluate_heldout user_map item_map user_factors item_factors ds := by
  have hall : row.extra.all (fun v => v.isSome) = false := by
    rw [List.all_eq_false]
    exact ⟨none, hn, by simp⟩
  have hdrop : map_id_to_index user_map item_map (ds ++ [row])
      = map_id_to_index user_map item_map ds :=
    map_id_to_index_append_drop user_map item_map ds row (by simp [hall])
  exact ⟨hdrop, by rw [evaluate_heldout, evaluate_heldout, hdrop]⟩

theorem dropna_removes_nan_rows_witness :
    map_id_to_index [(7, 0)] [(5, 0)] ([⟨7, 5, []⟩] ++ [⟨7, 5, [none]⟩])
        = map_id_to_index [(7, 0)] [(5, 0)] [⟨7, 5, []⟩]
    ∧ evaluate_heldout [(7, 0)] [(5, 0)] [[1, 2]] [[3, 4]] ([⟨7, 5, []⟩] ++ [⟨7, 5, [none]⟩])
        = evaluate_heldout [(7, 0)] [(5, 0)] [[1, 2]] [[3, 4]] [⟨7, 5, []⟩] :=
  dropna_removes_nan_rows [(7, 0)] [(5, 0)] [[1, 2]] [[3, 4]] [⟨7, 5, []⟩]
    ⟨7, 5, [none]⟩ rfl rfl (List.mem_singleton.mpr rfl)

end Lova
